import Mathlib

/-!
Verification of `scripts/generate_mock_data.py` (mock-data generator for a
transaction-reconciliation engine).

The Python script is shallowly embedded below.  Numeric values that the
script stores in `float`s are modelled by `ℚ`; the rounding performed by
Python's `round(x, 2)` and by the format `f"{x:.2f}"` (round half to even)
is modelled exactly by `rnd` on rationals.  Random draws (`random.random`,
`random.uniform`, `random.choice`, `random.shuffle`) are modelled as
explicit inputs, so every property is quantified over the possible draws.
-/

namespace ReconMock

/-! ## Decimal strings

`natStr n` is the usual base-10 rendering of a natural number, and
`zeroPad w s` models Python's `{:0wd}` zero padding.  `parseDecimal`
is the specification-side instrument used to state that a CSV field is
"numerically valid": it parses an optional sign, an integer part and an
optional fractional part.
-/

def natToDigitChar (d : ℕ) : Char := Char.ofNat (48 + d)

def natStrAux : ℕ → ℕ → List Char
  | 0, _ => []
  | fuel + 1, n =>
    if n = 0 then [] else natStrAux fuel (n / 10) ++ [natToDigitChar (n % 10)]

def natStr (n : ℕ) : String := if n = 0 then "0" else ⟨natStrAux n n⟩

def zeroPad (w : ℕ) (s : String) : String :=
  ⟨List.replicate (w - s.length) '0' ++ s.data⟩

def digitsVal (cs : List Char) : ℕ :=
  cs.foldl (fun a c => a * 10 + (c.toNat - 48)) 0

def parseNatChars (cs : List Char) : Option ℕ :=
  if cs = [] then none
  else if cs.all Char.isDigit then some (digitsVal cs) else none

def parsePos (cs : List Char) : Option ℚ :=
  let intPart := cs.takeWhile (fun c => c != '.')
  match cs.dropWhile (fun c => c != '.') with
  | [] => (parseNatChars intPart).map (fun n => (n : ℚ))
  | _ :: frac =>
    match parseNatChars intPart, parseNatChars frac with
    | some i, some f => some ((i : ℚ) + (f : ℚ) / 10 ^ frac.length)
    | _, _ => none

def parseDecimal (s : String) : Option ℚ :=
  match s.data with
  | [] => none
  | c :: rest => if c = '-' then (parsePos rest).map (fun q => -q) else parsePos (c :: rest)

/-- The fractional digits of a rendered decimal: everything after the `'.'`. -/
def fracDigits (s : String) : List Char :=
  (s.data.dropWhile (fun c => c != '.')).drop 1

/-! ## Rounding

`rnd q` is `q` rounded to the nearest integer, ties to even — the rounding
used by Python's `round` and by `format(x, '.2f')`. -/

def rnd (q : ℚ) : ℤ :=
  if Int.fract q < 1/2 then ⌊q⌋
  else if 1/2 < Int.fract q then ⌊q⌋ + 1
  else if ⌊q⌋ % 2 = 0 then ⌊q⌋ else ⌊q⌋ + 1

theorem rnd_intCast (n : ℤ) : rnd (n : ℚ) = n := by
  simp [rnd, Int.fract_intCast, Int.floor_intCast]

theorem abs_rnd_sub_le (q : ℚ) : |(rnd q : ℚ) - q| ≤ 1/2 := by
  have hfr : Int.fract q = q - ⌊q⌋ := (Int.self_sub_floor q).symm
  have h0 : 0 ≤ Int.fract q := Int.fract_nonneg q
  have h1 : Int.fract q < 1 := Int.fract_lt_one q
  rw [abs_le]
  unfold rnd
  split_ifs with hlt hgt hpar <;> push_cast <;> constructor <;> linarith [hfr]

theorem rnd_le_of_le_intCast {q : ℚ} {M : ℤ} (h : q ≤ (M : ℚ)) : rnd q ≤ M := by
  have hb := abs_rnd_sub_le q
  rw [abs_le] at hb
  have : (rnd q : ℚ) < (M : ℚ) + 1 := by linarith [hb.2]
  have h2 : (rnd q : ℚ) < ((M + 1 : ℤ) : ℚ) := by push_cast; linarith
  have h3 : rnd q < M + 1 := by exact_mod_cast h2
  omega

theorem intCast_le_rnd {q : ℚ} {M : ℤ} (h : (M : ℚ) ≤ q) : M ≤ rnd q := by
  have hb := abs_rnd_sub_le q
  rw [abs_le] at hb
  have h2 : ((M - 1 : ℤ) : ℚ) < (rnd q : ℚ) := by push_cast; linarith [hb.1]
  have h3 : (M - 1 : ℤ) < rnd q := by exact_mod_cast h2
  omega

theorem rnd_neg (q : ℚ) : rnd (-q) = - rnd q := by
  by_cases hz : Int.fract q = 0
  · have hq : q = (⌊q⌋ : ℚ) := by
      have h1 : q - ⌊q⌋ = Int.fract q := Int.self_sub_floor q
      rw [hz] at h1; linarith
    rw [hq, ← Int.cast_neg, rnd_intCast, rnd_intCast]
  · have hfneg : Int.fract (-q) = 1 - Int.fract q := Int.fract_neg hz
    have hfl : (⌊-q⌋ : ℚ) = -(⌊q⌋ : ℚ) - 1 := by
      have h1 : Int.fract q = q - ⌊q⌋ := (Int.self_sub_floor q).symm
      have h2 : Int.fract (-q) = -q - ⌊-q⌋ := (Int.self_sub_floor (-q)).symm
      rw [hfneg, h1] at h2
      linarith
    have hflz : ⌊-q⌋ = -⌊q⌋ - 1 := by exact_mod_cast hfl
    have h0 : 0 ≤ Int.fract q := Int.fract_nonneg q
    unfold rnd
    rw [hfneg, hflz]
    rcases lt_trichotomy (Int.fract q) (1/2) with hlt | heq | hgt
    · have : ¬ (1 - Int.fract q < 1/2) := by linarith
      have h2 : 1/2 < 1 - Int.fract q := by linarith
      simp only [this, h2, if_true, if_false, hlt, if_pos]
      omega
    · have h1 : ¬ (1 - Int.fract q < 1/2) := by rw [heq]; norm_num
      have h2 : ¬ (1/2 < 1 - Int.fract q) := by rw [heq]; norm_num
      have h3 : ¬ (Int.fract q < 1/2) := by rw [heq]; norm_num
      have h4 : ¬ (1/2 < Int.fract q) := by rw [heq]; norm_num
      simp only [h1, h2, h3, h4, if_false]
      by_cases hp : ⌊q⌋ % 2 = 0
      · have hp' : ¬ ((-⌊q⌋ - 1) % 2 = 0) := by omega
        simp only [hp, hp', if_true, if_false]
        omega
      · have hp' : (-⌊q⌋ - 1) % 2 = 0 := by omega
        simp only [hp, hp', if_true, if_false]
        omega
    · have h1 : 1 - Int.fract q < 1/2 := by linarith
      have h2 : ¬ (Int.fract q < 1/2) := by linarith
      have h3 : 1/2 < Int.fract q := hgt
      simp only [h1, h2, h3, if_true, if_false]
      omega

/-! ## Correctness of the decimal-string machinery -/

theorem digitVal_natToDigitChar {d : ℕ} (h : d < 10) :
    (natToDigitChar d).toNat - 48 = d := by
  interval_cases d <;> decide

theorem isDigit_natToDigitChar {d : ℕ} (h : d < 10) :
    (natToDigitChar d).isDigit = true := by
  interval_cases d <;> decide

theorem ne_dot_of_isDigit {c : Char} (h : c.isDigit = true) : c ≠ '.' := by
  intro hc; subst hc; exact absurd h (by decide)

theorem ne_dash_of_isDigit {c : Char} (h : c.isDigit = true) : c ≠ '-' := by
  intro hc; subst hc; exact absurd h (by decide)

theorem natStrAux_zero (fuel : ℕ) : natStrAux fuel 0 = [] := by
  cases fuel <;> rfl

theorem natStrAux_eq (n : ℕ) : ∀ fuel, n ≤ fuel →
    natStrAux fuel n = ((Nat.digits 10 n).reverse).map natToDigitChar := by
  induction n using Nat.strong_induction_on with
  | _ n ih =>
    intro fuel hfuel
    by_cases hn : n = 0
    · subst hn; rw [natStrAux_zero]; simp
    · cases fuel with
      | zero => omega
      | succ f =>
        show (if n = 0 then [] else natStrAux f (n / 10) ++ [natToDigitChar (n % 10)]) = _
        rw [if_neg hn]
        have hdiv : n / 10 < n := Nat.div_lt_self (Nat.pos_of_ne_zero hn) (by norm_num)
        have hfuel2 : n / 10 ≤ f := by omega
        rw [ih (n / 10) hdiv f hfuel2,
          Nat.digits_def' (by norm_num : (1 : ℕ) < 10) (Nat.pos_of_ne_zero hn),
          List.reverse_cons, List.map_append]
        rfl

theorem natStr_data (n : ℕ) :
    (natStr n).data =
      if n = 0 then ['0'] else ((Nat.digits 10 n).reverse).map natToDigitChar := by
  unfold natStr
  split_ifs with hn
  · rfl
  · exact natStrAux_eq n n le_rfl

theorem natStr_ne_nil (n : ℕ) : (natStr n).data ≠ [] := by
  rw [natStr_data]
  by_cases hn : n = 0
  · subst hn; simp
  · rw [if_neg hn]
    intro h
    have : Nat.digits 10 n = [] := by
      have := List.map_eq_nil_iff.mp h
      simpa using this
    exact (Nat.digits_ne_nil_iff_ne_zero.mpr hn) this

theorem natStr_all_digits (n : ℕ) : ∀ c ∈ (natStr n).data, c.isDigit = true := by
  by_cases hn : n = 0
  · subst hn; intro c hc
    rw [natStr_data, if_pos rfl, List.mem_singleton] at hc
    subst hc; decide
  · rw [natStr_data, if_neg hn]
    intro c hc
    obtain ⟨d, hd, rfl⟩ := List.mem_map.mp hc
    have : d ∈ Nat.digits 10 n := List.mem_reverse.mp hd
    exact isDigit_natToDigitChar (Nat.digits_lt_base (by norm_num) this)

theorem foldl_mul_add_reverse (l : List ℕ) (acc : ℕ) :
    l.reverse.foldl (fun a d => a * 10 + d) acc =
      acc * 10 ^ l.length + Nat.ofDigits 10 l := by
  induction l generalizing acc with
  | nil => simp [Nat.ofDigits]
  | cons d t ih =>
    simp only [List.reverse_cons, List.foldl_append, List.foldl_cons, List.foldl_nil, ih,
      Nat.ofDigits_cons, List.length_cons, pow_succ]
    ring

theorem foldl_digit_chars (l : List ℕ) (h : ∀ d ∈ l, d < 10) (acc : ℕ) :
    (l.map natToDigitChar).foldl (fun a c => a * 10 + (c.toNat - 48)) acc =
      l.foldl (fun a d => a * 10 + d) acc := by
  induction l generalizing acc with
  | nil => rfl
  | cons d t ih =>
    simp only [List.map_cons, List.foldl_cons]
    rw [digitVal_natToDigitChar (h d (by simp))]
    exact ih (fun x hx => h x (by simp [hx])) _

theorem digitsVal_natStr (n : ℕ) : digitsVal (natStr n).data = n := by
  by_cases hn : n = 0
  · subst hn; decide
  · rw [natStr_data, if_neg hn]
    simp only [digitsVal]
    rw [foldl_digit_chars]
    · have := foldl_mul_add_reverse (Nat.digits 10 n) 0
      simpa [Nat.ofDigits_digits] using this
    · intro d hd
      exact Nat.digits_lt_base (by norm_num) (List.mem_reverse.mp hd)

theorem parseNatChars_natStr (n : ℕ) : parseNatChars (natStr n).data = some n := by
  unfold parseNatChars
  rw [if_neg (natStr_ne_nil n), if_pos (List.all_eq_true.mpr (natStr_all_digits n)),
    digitsVal_natStr]

theorem digitsVal_replicate_zero_append (k : ℕ) (l : List Char) :
    digitsVal (List.replicate k '0' ++ l) = digitsVal l := by
  induction k with
  | zero => simp
  | succ m ih =>
    unfold digitsVal at ih ⊢
    rw [List.replicate_succ, List.cons_append, List.foldl_cons]
    have h0 : (0 : ℕ) * 10 + (('0' : Char).toNat - 48) = 0 := by decide
    change List.foldl _ ((0 : ℕ) * 10 + (('0' : Char).toNat - 48)) _ = _
    rw [h0]
    exact ih

theorem zeroPad_data (w : ℕ) (s : String) :
    (zeroPad w s).data = List.replicate (w - s.length) '0' ++ s.data := rfl

theorem zeroPad_ne_nil (w : ℕ) (s : String) (h : s.data ≠ []) : (zeroPad w s).data ≠ [] := by
  simp [zeroPad_data, h]

theorem zeroPad_all_digits (w : ℕ) (s : String) (h : ∀ c ∈ s.data, c.isDigit = true) :
    ∀ c ∈ (zeroPad w s).data, c.isDigit = true := by
  intro c hc
  rw [zeroPad_data] at hc
  rcases List.mem_append.mp hc with h1 | h2
  · have := List.eq_of_mem_replicate h1
    subst this; decide
  · exact h c h2

theorem digitsVal_zeroPad (w : ℕ) (s : String) :
    digitsVal (zeroPad w s).data = digitsVal s.data := by
  rw [zeroPad_data, digitsVal_replicate_zero_append]

theorem parseNatChars_zeroPad_natStr (w n : ℕ) :
    parseNatChars ((zeroPad w (natStr n)).data) = some n := by
  unfold parseNatChars
  rw [if_neg (zeroPad_ne_nil w _ (natStr_ne_nil n)),
    if_pos (List.all_eq_true.mpr (zeroPad_all_digits w _ (natStr_all_digits n))),
    digitsVal_zeroPad, digitsVal_natStr]

theorem natStr_length_le {n w : ℕ} (hw : 1 ≤ w) (h : n < 10 ^ w) :
    (natStr n).data.length ≤ w := by
  by_cases hn : n = 0
  · subst hn; rw [natStr_data, if_pos rfl]; simpa using hw
  · rw [natStr_data, if_neg hn]
    simp only [List.length_map, List.length_reverse]
    have h1 : 10 ^ (Nat.digits 10 n).length ≤ 10 * n :=
      Nat.base_pow_length_digits_le 10 n (by norm_num) hn
    have h2 : 10 * n < 10 ^ (w + 1) := by
      rw [pow_succ, mul_comm]
      omega
    have h3 : (10 : ℕ) ^ (Nat.digits 10 n).length < 10 ^ (w + 1) := lt_of_le_of_lt h1 h2
    have h4 : (Nat.digits 10 n).length < w + 1 :=
      (Nat.pow_lt_pow_iff_right (by norm_num)).mp h3
    omega

theorem zeroPad_length_of_le {w : ℕ} {s : String} (h : s.data.length ≤ w) :
    (zeroPad w s).data.length = w := by
  rw [zeroPad_data]
  simp only [List.length_append, List.length_replicate, String.length]
  omega

theorem takeWhile_dropWhile_append (p : Char → Bool) (l1 : List Char) (x : Char)
    (l2 : List Char) (h1 : ∀ c ∈ l1, p c = true) (hx : p x = false) :
    (l1 ++ x :: l2).takeWhile p = l1 ∧ (l1 ++ x :: l2).dropWhile p = x :: l2 := by
  induction l1 with
  | nil => simp [List.takeWhile_cons, List.dropWhile_cons, hx]
  | cons a t ih =>
    have ha : p a = true := h1 a (by simp)
    have iht := ih (fun c hc => h1 c (by simp [hc]))
    simp [List.takeWhile_cons, List.dropWhile_cons, ha, iht.1, iht.2]

theorem parsePos_digits_append (a : ℕ) (frac : List Char) (hne : frac ≠ [])
    (hdig : ∀ c ∈ frac, c.isDigit = true) :
    parsePos ((natStr a).data ++ '.' :: frac) =
      some ((a : ℚ) + (digitsVal frac : ℚ) / 10 ^ frac.length) := by
  have hpre : ∀ c ∈ (natStr a).data, (c != '.') = true := fun c hc => by
    simpa using ne_dot_of_isDigit (natStr_all_digits a c hc)
  have hdot : (('.' : Char) != '.') = false := by decide
  obtain ⟨ht, hd⟩ :=
    takeWhile_dropWhile_append (fun c => c != '.') (natStr a).data '.' frac hpre hdot
  have hfr : parseNatChars frac = some (digitsVal frac) := by
    unfold parseNatChars
    rw [if_neg hne, if_pos (List.all_eq_true.mpr hdig)]
  simp only [parsePos, ht, hd, parseNatChars_natStr, hfr]

/-! ## Fixed-point rendering -/

/-- Digits of an amount of `n` cents: integer part, `'.'`, two digits. -/
def centsChars (n : ℕ) : List Char :=
  (natStr (n / 100)).data ++ '.' :: (zeroPad 2 (natStr (n % 100))).data

/-- `format2 q` models Python's `f"{q:.2f}"`: round to the nearest
multiple of `1/100` (ties to even) and print with exactly two fractional
digits. -/
def format2 (q : ℚ) : String :=
  let c := rnd (100 * q)
  if c < 0 then ⟨'-' :: centsChars c.natAbs⟩ else ⟨centsChars c.natAbs⟩

theorem parseDecimal_not_dash (c0 : Char) (r : List Char) (hne : c0 ≠ '-') :
    parseDecimal ⟨c0 :: r⟩ = parsePos (c0 :: r) := by
  show (if c0 = '-' then (parsePos r).map (fun q => -q) else parsePos (c0 :: r)) = _
  rw [if_neg hne]

theorem parseDecimal_dash (r : List Char) :
    parseDecimal ⟨'-' :: r⟩ = (parsePos r).map (fun q => -q) := by
  show (if ('-' : Char) = '-' then (parsePos r).map (fun q => -q)
    else parsePos ('-' :: r)) = (parsePos r).map (fun q => -q)
  rw [if_pos rfl]

theorem pad2_length {m : ℕ} (hm : m < 100) :
    (zeroPad 2 (natStr m)).data.length = 2 := by
  have h102 : (10 : ℕ) ^ 2 = 100 := by norm_num
  exact zeroPad_length_of_le (natStr_length_le (by norm_num) (by omega))

theorem cast_div_add_mod (n : ℕ) :
    ((n / 100 : ℕ) : ℚ) * 100 + ((n % 100 : ℕ) : ℚ) = (n : ℚ) := by
  have h := Nat.div_add_mod n 100
  have h2 : ((100 * (n / 100) + n % 100 : ℕ) : ℚ) = (n : ℚ) := by exact_mod_cast h
  push_cast at h2
  linarith

theorem parsePos_centsChars (n : ℕ) :
    parsePos (centsChars n) = some ((n : ℚ) / 100) := by
  have hm : n % 100 < 100 := Nat.mod_lt _ (by norm_num)
  have h102 : (10 : ℕ) ^ 2 = 100 := by norm_num
  have hlen : (zeroPad 2 (natStr (n % 100))).data.length = 2 := pad2_length hm
  have hP := parsePos_digits_append (n / 100) (zeroPad 2 (natStr (n % 100))).data
    (zeroPad_ne_nil 2 _ (natStr_ne_nil _))
    (zeroPad_all_digits 2 _ (natStr_all_digits _))
  rw [centsChars, hP, digitsVal_zeroPad, digitsVal_natStr, hlen]
  congr 1
  have key := cast_div_add_mod n
  have h10 : ((10 : ℚ) ^ 2) = 100 := by norm_num
  rw [h10]
  field_simp
  linarith

theorem natStr_head_digit (n : ℕ) :
    ∃ c0 r, (natStr n).data = c0 :: r ∧ c0.isDigit = true := by
  cases hdata : (natStr n).data with
  | nil => exact absurd hdata (natStr_ne_nil n)
  | cons c0 r =>
    refine ⟨c0, r, rfl, ?_⟩
    apply natStr_all_digits
    rw [hdata]; simp

theorem parseDecimal_centsChars (n : ℕ) :
    parseDecimal ⟨centsChars n⟩ = some ((n : ℚ) / 100) := by
  obtain ⟨c0, r, hdata, hdig⟩ := natStr_head_digit (n / 100)
  have hl : centsChars n = c0 :: (r ++ '.' :: (zeroPad 2 (natStr (n % 100))).data) := by
    rw [centsChars, hdata]; rfl
  rw [hl, parseDecimal_not_dash c0 _ (ne_dash_of_isDigit hdig), ← hl, parsePos_centsChars]

theorem parseDecimal_format2 (q : ℚ) :
    parseDecimal (format2 q) = some ((rnd (100 * q) : ℚ) / 100) := by
  unfold format2
  by_cases hneg : rnd (100 * q) < 0
  · rw [if_pos hneg, parseDecimal_dash, parsePos_centsChars]
    rw [Option.map_some']
    congr 1
    have h2 : (((rnd (100 * q)).natAbs : ℕ) : ℚ) = -((rnd (100 * q) : ℤ) : ℚ) := by
      rw [Int.cast_natAbs, abs_of_nonpos (le_of_lt hneg)]
      push_cast
      ring
    rw [h2]
    ring
  · rw [if_neg hneg, parseDecimal_centsChars]
    congr 1
    have h2 : (((rnd (100 * q)).natAbs : ℕ) : ℚ) = ((rnd (100 * q) : ℤ) : ℚ) := by
      rw [Int.cast_natAbs, abs_of_nonneg (not_lt.mp hneg)]
    rw [h2]

theorem dropWhile_centsChars (n : ℕ) :
    (centsChars n).dropWhile (fun c => c != '.') =
      '.' :: (zeroPad 2 (natStr (n % 100))).data := by
  have hpre : ∀ c ∈ (natStr (n / 100)).data, (c != '.') = true := fun c hc => by
    simpa using ne_dot_of_isDigit (natStr_all_digits _ c hc)
  exact (takeWhile_dropWhile_append _ _ '.' _ hpre (by decide)).2

theorem fracDigits_format2 (q : ℚ) :
    fracDigits (format2 q) =
      (zeroPad 2 (natStr ((rnd (100 * q)).natAbs % 100))).data := by
  unfold format2 fracDigits
  by_cases hneg : rnd (100 * q) < 0
  · rw [if_pos hneg]
    show ((('-' :: centsChars (rnd (100 * q)).natAbs).dropWhile
      (fun c => c != '.')).drop 1) = _
    rw [List.dropWhile_cons, if_pos (show (('-' : Char) != '.') = true by decide),
      dropWhile_centsChars]
    rfl
  · rw [if_neg hneg]
    show (((centsChars (rnd (100 * q)).natAbs).dropWhile (fun c => c != '.')).drop 1) = _
    rw [dropWhile_centsChars]
    rfl

theorem fracDigits_format2_length (q : ℚ) : (fracDigits (format2 q)).length = 2 := by
  rw [fracDigits_format2]
  exact pad2_length (Nat.mod_lt _ (by norm_num))

theorem fracDigits_format2_digits (q : ℚ) :
    ∀ c ∈ fracDigits (format2 q), c.isDigit = true := by
  rw [fracDigits_format2]
  exact zeroPad_all_digits 2 _ (natStr_all_digits _)

theorem parseDecimal_natStr_append (a : ℕ) (rest : List Char) :
    parseDecimal ⟨(natStr a).data ++ rest⟩ = parsePos ((natStr a).data ++ rest) := by
  obtain ⟨c0, r, hdata, hdig⟩ := natStr_head_digit a
  have hl : (natStr a).data ++ rest = c0 :: (r ++ rest) := by rw [hdata]; rfl
  rw [hl, parseDecimal_not_dash c0 _ (ne_dash_of_isDigit hdig), ← hl]

/-- `str` applied to a float holding a two-decimal value (line 191 hands
the raw float `amount` to `csv.writer`, which stringifies it with `str`).
For such a float, `str` produces the shortest decimal that round-trips:
the two-decimal rendering with trailing fractional zeros trimmed, keeping
at least one fractional digit. -/
def pyFloatStr (q : ℚ) : String :=
  let c := rnd (100 * q)
  let n := c.natAbs
  let sgn : List Char := if c < 0 then ['-'] else []
  if n % 100 = 0 then ⟨sgn ++ ((natStr (n / 100)).data ++ ['.', '0'])⟩
  else if n % 10 = 0 then
    ⟨sgn ++ ((natStr (n / 100)).data ++ '.' :: (natStr (n / 10 % 10)).data)⟩
  else ⟨sgn ++ centsChars n⟩

theorem parseDecimal_pyFloatStr_natCast (n : ℕ) :
    parseDecimal (pyFloatStr ((n : ℚ) / 100)) = some ((n : ℚ) / 100) := by
  have hc : rnd (100 * ((n : ℚ) / 100)) = (n : ℤ) := by
    have h : (100 : ℚ) * ((n : ℚ) / 100) = ((n : ℤ) : ℚ) := by push_cast; ring
    rw [h, rnd_intCast]
  have hnn : ¬ ((n : ℤ) < 0) := by omega
  have habs : ((n : ℤ)).natAbs = n := Int.natAbs_ofNat n
  simp only [pyFloatStr, hc, hnn, if_false, habs, List.nil_append]
  by_cases h100 : n % 100 = 0
  · rw [if_pos h100]
    have hP := parsePos_digits_append (n / 100) ['0'] (by simp)
      (by intro c hcm; rw [List.mem_singleton] at hcm; subst hcm; decide)
    have hval : digitsVal ['0'] = 0 := by decide
    rw [show ((natStr (n / 100)).data ++ ['.', '0'] : List Char) =
      (natStr (n / 100)).data ++ '.' :: ['0'] from rfl]
    rw [parseDecimal_natStr_append, hP, hval]
    congr 1
    have hdvd : 100 * (n / 100) = n := Nat.mul_div_cancel' (Nat.dvd_of_mod_eq_zero h100)
    have hcast : (100 : ℚ) * ((n / 100 : ℕ) : ℚ) = (n : ℚ) := by exact_mod_cast hdvd
    push_cast
    field_simp
    linarith
  · rw [if_neg h100]
    by_cases h10 : n % 10 = 0
    · rw [if_pos h10]
      have hd : n / 10 % 10 < 10 := Nat.mod_lt _ (by norm_num)
      have hlen1 : (natStr (n / 10 % 10)).data.length = 1 := by
        have hle : (natStr (n / 10 % 10)).data.length ≤ 1 :=
          natStr_length_le (by norm_num) (by simpa using hd)
        have hpos : 0 < (natStr (n / 10 % 10)).data.length :=
          List.length_pos.mpr (natStr_ne_nil _)
        omega
      have hP := parsePos_digits_append (n / 100) (natStr (n / 10 % 10)).data
        (natStr_ne_nil _) (natStr_all_digits _)
      rw [parseDecimal_natStr_append, hP, digitsVal_natStr, hlen1]
      congr 1
      have hsplit : 100 * (n / 100) + 10 * (n / 10 % 10) = n := by omega
      have hcast : (100 : ℚ) * ((n / 100 : ℕ) : ℚ) + 10 * ((n / 10 % 10 : ℕ) : ℚ) = (n : ℚ) := by
        exact_mod_cast hsplit
      field_simp
      linarith
    · rw [if_neg h10, parseDecimal_centsChars]

/-! ## Data model and embedding of `generate_mock_data.py` -/

inductive TxType
| DEBIT
| CREDIT
deriving DecidableEq

/-- A datetime, reduced to the calendar components that
`strftime("%Y-%m-%d")` renders. -/
structure PyDate where
  year : ℕ
  month : ℕ
  day : ℕ
deriving DecidableEq

/-- One authoritative (system-of-record) transaction, as built on
lines 95–106. -/
structure Transaction where
  trx_id : String
  amount : ℚ
  tx_type : TxType
  tx_time : PyDate
deriving DecidableEq

/-- One data row of a bank CSV file: `trx_ref_id, amount, date`. -/
structure CsvRow where
  trx_ref_id : String
  amount : String
  date : String
deriving DecidableEq

/-- `q` is an exact multiple of `1/100` (a two-decimal value). -/
def isCents (q : ℚ) : Prop := ∃ n : ℤ, q = (n : ℚ) / 100

/-- Configuration constants (lines 25–34).  `ERROR_RATE = 0.05` is the
rational value of that decimal literal. -/
def NUM_TRANSACTIONS : ℕ := 100

def NUM_BANK_FILES : ℕ := 1

def ROWS_PER_BANK : ℕ := NUM_TRANSACTIONS

def ERROR_RATE : ℚ := 5 / 100

def BANKS : List String := ["bank_bca"]

/-- `generate_transaction_id` (lines 56–58): `f"TRX{index:08d}"`. -/
def generate_transaction_id (index : ℕ) : String :=
  "TRX" ++ zeroPad 8 (natStr index)

/-- `generate_random_amount` (lines 61–63):
`round(random.uniform(10.0, 10000.0), 2)` where `u` is the uniform
draw. -/
def generate_random_amount (u : ℚ) : ℚ :=
  (rnd (100 * u) : ℚ) / 100

/-- The random draws consumed for one transaction on lines 96–99. -/
structure TxDraw where
  amountDraw : ℚ
  typeDraw : TxType
  timeDraw : PyDate

/-- The generation loop of `create_postgres_transactions`
(lines 94–106): `for i in range(1, NUM_TRANSACTIONS + 1)` builds a
transaction from `generate_transaction_id(i)` and the random draws.
The surrounding database I/O of lines 73–132 is modelled in
`main_run`. -/
def create_postgres_transactions (count : ℕ) (d : ℕ → TxDraw) : List Transaction :=
  (List.range count).map fun i =>
    { trx_id := generate_transaction_id (i + 1)
      amount := generate_random_amount (d (i + 1)).amountDraw
      tx_type := (d (i + 1)).typeDraw
      tx_time := (d (i + 1)).timeDraw }

/-- `tx_datetime.strftime("%Y-%m-%d")` (line 172). -/
def dateStr (d : PyDate) : String :=
  ⟨(zeroPad 4 (natStr d.year)).data ++
    '-' :: ((zeroPad 2 (natStr d.month)).data ++ '-' :: (zeroPad 2 (natStr d.day)).data)⟩

/-- `bank_amount = -amount if tx_type == "DEBIT" else amount`
(lines 200 and 206). -/
def bank_signed : TxType → ℚ → ℚ
  | TxType.DEBIT, a => -a
  | TxType.CREDIT, a => a

/-- The four strings passed to `random.choice` on lines 178–183. -/
inductive ErrorType
| wrong_format_amount
| wrong_format_date
| missing_field
| amount_discrepancy
deriving DecidableEq

/-- Lines 167–208: emission of one CSV row for transaction `t`.
`u` is the draw of `random.random()` on line 175, `error_rate` the
`ERROR_RATE` configuration, `etype` the draw of `random.choice` on
lines 178–183 and `offset` the draw of `random.uniform(-100, 100)` on
line 199 (the latter two draws are consumed only on the branches that
use them). -/
def emit_row (t : Transaction) (u error_rate : ℚ) (etype : ErrorType) (offset : ℚ) : CsvRow :=
  let date_str := dateStr t.tx_time
  if u < error_rate then
    match etype with
    | ErrorType.wrong_format_amount => ⟨t.trx_id, "invalid_amount", date_str⟩
    | ErrorType.wrong_format_date => ⟨t.trx_id, pyFloatStr t.amount, "2024-13-45"⟩
    | ErrorType.missing_field => ⟨t.trx_id, "", date_str⟩
    | ErrorType.amount_discrepancy =>
      let discrepancy_amount := t.amount + offset
      let bank_amount := bank_signed t.tx_type discrepancy_amount
      ⟨t.trx_id, format2 bank_amount, date_str⟩
  else
    let bank_amount := bank_signed t.tx_type t.amount
    ⟨t.trx_id, format2 bank_amount, date_str⟩

/-- Lines 158–161: `start_idx = bank_index * (len(available) // NUM_BANK_FILES)`
and `bank_transactions = available[start_idx : start_idx + ROWS_PER_BANK]`,
where `available` is the once-shuffled transaction list. -/
def bank_slice (available : List Transaction) (num_banks rows_per_bank bank_index : ℕ) :
    List Transaction :=
  (available.drop (bank_index * (available.length / num_banks))).take rows_per_bank

/-- `fake_trx_id = f"BANK_{bank_name.upper()}_{i:06d}"` (line 215). -/
def fake_trx_id (bank_name : String) (i : ℕ) : String :=
  "BANK_" ++ bank_name.toUpper ++ "_" ++ zeroPad 6 (natStr i)

/-- `num_unmatched = int(ROWS_PER_BANK * 0.05)` (line 213); `int` on a
nonnegative float truncates, i.e. takes the floor, and `0.05` is
modelled by its decimal value `5/100`. -/
def num_unmatched (rows_per_bank : ℕ) : ℕ :=
  (⌊(rows_per_bank : ℚ) * (5 / 100)⌋).toNat

/-- Lines 212–224: the loop appending synthetic unmatched records.
`udraw i` supplies the `generate_random_amount` uniform draw and the
`generate_random_datetime` result for iteration `i`. -/
def unmatched_rows (bank_name : String) (rows_per_bank : ℕ) (udraw : ℕ → ℚ × PyDate) :
    List CsvRow :=
  (List.range (num_unmatched rows_per_bank)).map fun i =>
    ⟨fake_trx_id bank_name i,
      format2 (generate_random_amount (udraw i).1),
      dateStr (udraw i).2⟩

/-- Lines 147–224: the data rows written for one bank: each sliced
transaction is passed through the error-injection branch (the
`rows_written >= ROWS_PER_BANK` break on line 164 can never fire, since
the slice has at most `ROWS_PER_BANK` elements), then the unmatched
records are appended.  `rdraw i` supplies the three random draws for
row `i`. -/
def bank_rows (available : List Transaction) (num_banks rows_per_bank bank_index : ℕ)
    (bank_name : String) (error_rate : ℚ) (rdraw : ℕ → ℚ × ErrorType × ℚ)
    (udraw : ℕ → ℚ × PyDate) : List CsvRow :=
  let bank_transactions := bank_slice available num_banks rows_per_bank bank_index
  (List.zipWith (fun t (d : ℚ × ErrorType × ℚ) => emit_row t d.1 error_rate d.2.1 d.2.2)
      bank_transactions ((List.range bank_transactions.length).map rdraw)) ++
    unmatched_rows bank_name rows_per_bank udraw

/-- `create_bank_csv_files` (lines 135–230): one CSV file per bank in
`BANKS`, over the shuffled transaction list. -/
def create_bank_csv_files (shuffled : List Transaction) (error_rate : ℚ)
    (rdraw : ℕ → ℕ → ℚ × ErrorType × ℚ) (udraw : ℕ → ℕ → ℚ × PyDate) :
    List (String × List CsvRow) :=
  BANKS.enum.map fun p =>
    (p.2 ++ ".csv",
      bank_rows shuffled NUM_BANK_FILES ROWS_PER_BANK p.1 p.2 error_rate
        (rdraw p.1) (udraw p.1))

/-- The outcome of one run of `main`. -/
structure RunResult where
  exit_code : ℕ
  files : List (String × List CsvRow)

/-- `main` (lines 244–266): `create_postgres_transactions` persists the
authoritative dataset and re-raises database errors (lines 130–132);
on success the bank CSV files are created from the (shuffled)
transaction list; on an exception the `except` handler prints and runs
`exit(1)` before `create_bank_csv_files` is ever reached, so no bank
file is written.  `persist` is the outcome of the database write and
`shuffle` the permutation chosen by `random.shuffle` on line 140. -/
def main_run (persist : Except String (List Transaction))
    (shuffle : List Transaction → List Transaction) (error_rate : ℚ)
    (rdraw : ℕ → ℕ → ℚ × ErrorType × ℚ) (udraw : ℕ → ℕ → ℚ × PyDate) : RunResult :=
  match persist with
  | Except.error _ => { exit_code := 1, files := [] }
  | Except.ok txs =>
    { exit_code := 0
      files := create_bank_csv_files (shuffle txs) error_rate rdraw udraw }

/-! ## Helper lemmas about the embedded operations -/

theorem rnd_100_cents {q : ℚ} {n : ℤ} (h : q = (n : ℚ) / 100) : rnd (100 * q) = n := by
  have h2 : (100 : ℚ) * q = (n : ℚ) := by rw [h]; field_simp
  rw [h2, rnd_intCast]

theorem parse_format2_cents {q : ℚ} (hc : isCents q) :
    parseDecimal (format2 q) = some q := by
  obtain ⟨n, hn⟩ := hc
  rw [parseDecimal_format2, rnd_100_cents hn, ← hn]

theorem bank_signed_cents {q : ℚ} (ty : TxType) (hc : isCents q) :
    isCents (bank_signed ty q) := by
  obtain ⟨n, hn⟩ := hc
  cases ty
  · exact ⟨-n, by rw [bank_signed, hn]; push_cast; ring⟩
  · exact ⟨n, hn⟩

theorem parseDecimal_pyFloatStr_cents {q : ℚ} (hc : isCents q) (h0 : 0 ≤ q) :
    parseDecimal (pyFloatStr q) = some q := by
  obtain ⟨m, hm⟩ := hc
  have hm0 : 0 ≤ m := by
    by_contra hneg
    push_neg at hneg
    have h1 : (m : ℚ) < 0 := by exact_mod_cast hneg
    have h2 : (m : ℚ) / 100 < 0 := div_neg_of_neg_of_pos h1 (by norm_num)
    rw [hm] at h0
    linarith
  have hq : q = ((m.toNat : ℕ) : ℚ) / 100 := by
    rw [hm]
    congr 1
    exact_mod_cast (Int.toNat_of_nonneg hm0).symm
  rw [hq, parseDecimal_pyFloatStr_natCast]

theorem num_unmatched_eq (rows : ℕ) : num_unmatched rows = rows / 20 := by
  unfold num_unmatched
  have h : (rows : ℚ) * (5 / 100) = (rows : ℚ) / ((20 : ℕ) : ℚ) := by push_cast; ring
  rw [h, Int.floor_toNat, Nat.floor_div_nat, Nat.floor_natCast]

theorem num_unmatched_100 : num_unmatched 100 = 5 := by
  rw [num_unmatched_eq]

theorem unmatched_rows_length (bank_name : String) (rows : ℕ) (udraw : ℕ → ℚ × PyDate) :
    (unmatched_rows bank_name rows udraw).length = num_unmatched rows := by
  simp [unmatched_rows]

theorem fake_trx_id_headChar (b : String) (i : ℕ) :
    (fake_trx_id b i).data.head? = some 'B' := by
  show (("BANK_" ++ b.toUpper ++ "_" ++ zeroPad 6 (natStr i)).data).head? = some 'B'
  rw [String.data_append, String.data_append, String.data_append]
  rfl

theorem generate_transaction_id_headChar (j : ℕ) :
    (generate_transaction_id j).data.head? = some 'T' := by
  show (("TRX" ++ zeroPad 8 (natStr j)).data).head? = some 'T'
  rw [String.data_append]
  rfl

theorem generate_transaction_id_inj {a b : ℕ}
    (h : generate_transaction_id a = generate_transaction_id b) : a = b := by
  have hd : ("TRX".data ++ (zeroPad 8 (natStr a)).data) =
      ("TRX".data ++ (zeroPad 8 (natStr b)).data) := by
    have h2 := congrArg String.data h
    simpa [generate_transaction_id, String.data_append] using h2
  have hx : (zeroPad 8 (natStr a)).data = (zeroPad 8 (natStr b)).data :=
    List.append_cancel_left hd
  have ha := parseNatChars_zeroPad_natStr 8 a
  rw [hx, parseNatChars_zeroPad_natStr 8 b] at ha
  exact (Option.some_inj.mp ha).symm

theorem generate_random_amount_range {u : ℚ} (h1 : 10 ≤ u) (h2 : u ≤ 10000) :
    10 ≤ generate_random_amount u ∧ generate_random_amount u ≤ 10000 ∧
      isCents (generate_random_amount u) := by
  unfold generate_random_amount
  have hup : 100 * u ≤ ((1000000 : ℤ) : ℚ) := by push_cast; linarith
  have hlo : ((1000 : ℤ) : ℚ) ≤ 100 * u := by push_cast; linarith
  have h3 := rnd_le_of_le_intCast hup
  have h4 := intCast_le_rnd hlo
  have h5 : (rnd (100 * u) : ℚ) ≤ ((1000000 : ℤ) : ℚ) := by exact_mod_cast h3
  have h6 : ((1000 : ℤ) : ℚ) ≤ (rnd (100 * u) : ℚ) := by exact_mod_cast h4
  push_cast at h5 h6
  refine ⟨by linarith, by linarith, ⟨rnd (100 * u), rfl⟩⟩

theorem toUpper_bank_bca : "bank_bca".toUpper = "BANK_BCA" := by
  show "bank_bca".map Char.toUpper = _
  rw [String.map_eq]
  decide

theorem disjoint_map_take_drop (f : Transaction → String) (l : List Transaction)
    (hnd : (l.map f).Nodup) (s r s' r' : ℕ) (h : s + r ≤ s') :
    List.Disjoint (((l.drop s).take r).map f) (((l.drop s').take r').map f) := by
  intro b hb1 hb2
  have hnd' : ((l.drop s).map f).Nodup := by
    rw [List.map_drop]
    exact List.Nodup.sublist (List.drop_sublist _ _) hnd
  have hsplit := List.take_append_drop r (l.drop s)
  have hnd2 : (((l.drop s).take r).map f ++ ((l.drop s).drop r).map f).Nodup := by
    rw [← List.map_append, hsplit]
    exact hnd'
  have hdisj := (List.nodup_append.mp hnd2).2.2
  apply hdisj hb1
  have hsub : List.Sublist ((l.drop s').take r') ((l.drop s).drop r) := by
    have h1 : l.drop s' = (l.drop s).drop (s' - s) := by
      rw [List.drop_drop]
      congr 1
      omega
    have h2 : (((l.drop s).drop r).drop (s' - s - r)) = (l.drop s).drop (s' - s) := by
      rw [List.drop_drop]
      congr 1
      omega
    rw [h1, ← h2]
    exact (List.take_sublist _ _).trans (List.drop_sublist _ _)
  exact (hsub.map f).subset hb2

/-! ## Claim theorems -/

/-- C1: For every non-defective (faithful mirror) external row — in
particular for every row when `error_rate = 0`, since `random.random()`
is nonnegative — the amount field is the transaction's amount with the
sign convention applied (DEBIT negated, CREDIT positive), rendered with
exactly two fractional digits, and the date field is the transaction's
calendar date in `YYYY-MM-DD` format. -/
theorem C1_faithful_mirror (t : Transaction) (u error_rate : ℚ) (etype : ErrorType)
    (offset : ℚ) (hu : 0 ≤ u) (hfaithful : error_rate ≤ u ∨ error_rate = 0)
    (hc : isCents t.amount) :
    (emit_row t u error_rate etype offset).amount =
        format2 (bank_signed t.tx_type t.amount) ∧
    parseDecimal (emit_row t u error_rate etype offset).amount =
        some (bank_signed t.tx_type t.amount) ∧
    (t.tx_type = TxType.DEBIT → bank_signed t.tx_type t.amount = -t.amount) ∧
    (t.tx_type = TxType.CREDIT → bank_signed t.tx_type t.amount = t.amount) ∧
    (fracDigits (emit_row t u error_rate etype offset).amount).length = 2 ∧
    (∀ c ∈ fracDigits (emit_row t u error_rate etype offset).amount, c.isDigit = true) ∧
    (emit_row t u error_rate etype offset).date = dateStr t.tx_time := by
  have hni : ¬ u < error_rate := by
    rcases hfaithful with h | h
    · linarith
    · rw [h]; linarith
  simp only [emit_row, if_neg hni]
  refine ⟨trivial, ?_, ?_, ?_, fracDigits_format2_length _, fracDigits_format2_digits _, trivial⟩
  · exact parse_format2_cents (bank_signed_cents t.tx_type hc)
  · intro hty; rw [hty]; rfl
  · intro hty; rw [hty]; rfl

theorem C1_witness :
    (0 : ℚ) ≤ 1 ∧ (5 : ℚ) / 100 ≤ 1 ∧
    parseDecimal (emit_row ⟨"TRX00000001", 12345 / 100, TxType.DEBIT, ⟨2024, 3, 15⟩⟩ 1
        (5 / 100) ErrorType.wrong_format_amount 0).amount =
      some (-(12345 / 100) : ℚ) := by
  refine ⟨by norm_num, by norm_num, ?_⟩
  have h := C1_faithful_mirror ⟨"TRX00000001", 12345 / 100, TxType.DEBIT, ⟨2024, 3, 15⟩⟩ 1
    (5 / 100) ErrorType.wrong_format_amount 0 (by norm_num) (Or.inl (by norm_num))
    ⟨12345, by norm_num⟩
  exact h.2.1

/-- C2 counterexample: for a DEBIT transaction of amount 100, the
malformed-date row's amount field is the raw `str(amount)` rendering
`"100.0"`, which parses to `+100`, while the DEBIT sign convention
demands `-100`: the claim that the amount field of a MALFORMED_DATE row
is "correctly signed per the convention" is false. -/
theorem C2_counterexample :
    parseDecimal ((emit_row ⟨"TRX00000001", 100, TxType.DEBIT, ⟨2024, 3, 15⟩⟩ 0 1
        ErrorType.wrong_format_date 0).amount) = some (100 : ℚ) ∧
    bank_signed TxType.DEBIT (100 : ℚ) = -100 ∧
    some (100 : ℚ) ≠ some (-100 : ℚ) := by
  refine ⟨?_, rfl, by norm_num⟩
  have hu : (0 : ℚ) < 1 := by norm_num
  simp only [emit_row, if_pos hu]
  show parseDecimal (pyFloatStr (100 : ℚ)) = some 100
  have h100 : (100 : ℚ) = ((10000 : ℕ) : ℚ) / 100 := by norm_num
  rw [h100, parseDecimal_pyFloatStr_natCast]

/-- C2 (amended): for every defective row of category MALFORMED_DATE,
the date field is the calendar-invalid but date-like string
`"2024-13-45"` (month 13 > 12, day 45 > 31) while the amount field is
numerically valid — it parses back to the transaction's *raw, unsigned*
amount; the DEBIT→negative / CREDIT→positive sign convention is *not*
applied to it. -/
theorem C2_malformed_date_amended (t : Transaction) (u error_rate offset : ℚ)
    (hdef : u < error_rate) (hc : isCents t.amount) (hpos : 0 ≤ t.amount) :
    (emit_row t u error_rate ErrorType.wrong_format_date offset).date = "2024-13-45" ∧
    (emit_row t u error_rate ErrorType.wrong_format_date offset).date =
        dateStr ⟨2024, 13, 45⟩ ∧
    12 < 13 ∧ 31 < 45 ∧
    parseDecimal (emit_row t u error_rate ErrorType.wrong_format_date offset).amount =
      some t.amount := by
  simp only [emit_row, if_pos hdef]
  exact ⟨trivial, by decide, by norm_num, by norm_num,
    parseDecimal_pyFloatStr_cents hc hpos⟩

theorem C2_amended_witness :
    (0 : ℚ) < 1 ∧ (0 : ℚ) ≤ 100 ∧
    parseDecimal (emit_row ⟨"TRX00000001", 100, TxType.DEBIT, ⟨2024, 3, 15⟩⟩ 0 1
        ErrorType.wrong_format_date 0).amount = some (100 : ℚ) := by
  refine ⟨by norm_num, by norm_num, ?_⟩
  have h := C2_malformed_date_amended ⟨"TRX00000001", 100, TxType.DEBIT, ⟨2024, 3, 15⟩⟩ 0 1 0
    (by norm_num) ⟨10000, by norm_num⟩ (by norm_num)
  exact h.2.2.2.2

/-- C4: for every external row derived from an authoritative transaction
— faithful mirror or any of the four defect categories — the `ref_id`
written to the output equals that transaction's id unchanged. -/
theorem C4_ref_id_preserved (t : Transaction) (u error_rate : ℚ) (etype : ErrorType)
    (offset : ℚ) :
    (emit_row t u error_rate etype offset).trx_ref_id = t.trx_id := by
  unfold emit_row
  split_ifs with h
  · cases etype <;> rfl
  · rfl

/-- C10: every row assigned the malformed-date defect gets the single
fixed sentinel string `"2024-13-45"` as its date field, for every
transaction, draw and error rate — the calendar-invalid date is
deterministic, not randomly generated. -/
theorem C10_malformed_date_constant (t : Transaction) (u error_rate offset : ℚ)
    (hdef : u < error_rate) :
    (emit_row t u error_rate ErrorType.wrong_format_date offset).date = "2024-13-45" := by
  simp only [emit_row, if_pos hdef]

theorem C10_witness :
    (0 : ℚ) < 1 ∧
    (emit_row ⟨"TRX00000001", 100, TxType.CREDIT, ⟨2024, 1, 2⟩⟩ 0 1
        ErrorType.wrong_format_date 0).date = "2024-13-45" :=
  ⟨by norm_num,
    C10_malformed_date_constant ⟨"TRX00000001", 100, TxType.CREDIT, ⟨2024, 1, 2⟩⟩ 0 1 0
      (by norm_num)⟩

/-- C3 counterexample: with a shuffled pool of 3 transactions with
distinct ids, 2 sources and `rows_per_source = 2`, source 0 receives the
window `[0, 2)` and source 1 the window `[1, 3)` (start offset
`1 * (3 // 2) = 1`), so both contain the transaction `"TRX00000002"`:
the partition subsets are *not* disjoint for every number of sources,
every `rows_per_source` and every pool size. -/
theorem C3_counterexample :
    ¬ List.Disjoint
      ((bank_slice [⟨"TRX00000001", 10, TxType.CREDIT, ⟨2024, 1, 1⟩⟩,
          ⟨"TRX00000002", 10, TxType.CREDIT, ⟨2024, 1, 1⟩⟩,
          ⟨"TRX00000003", 10, TxType.CREDIT, ⟨2024, 1, 1⟩⟩] 2 2 0).map Transaction.trx_id)
      ((bank_slice [⟨"TRX00000001", 10, TxType.CREDIT, ⟨2024, 1, 1⟩⟩,
          ⟨"TRX00000002", 10, TxType.CREDIT, ⟨2024, 1, 1⟩⟩,
          ⟨"TRX00000003", 10, TxType.CREDIT, ⟨2024, 1, 1⟩⟩] 2 2 1).map Transaction.trx_id) := by
  intro hdisj
  exact hdisj (a := "TRX00000002") (by decide) (by decide)

/-- C3 (amended): the windows `[i * (total // num_sources),
i * (total // num_sources) + rows_per_source)` sliced from the shuffled
pool are pairwise disjoint in transaction id *provided*
`rows_per_source ≤ total // num_sources` (so that consecutive windows
cannot overlap) and the pool's ids are pairwise distinct.  The script's
own configuration (`rows_per_source = total`, `num_sources = 1`)
satisfies this bound. -/
theorem C3_partition_disjoint_amended (available : List Transaction)
    (num_banks rows_per_bank i j : ℕ)
    (hnd : (available.map Transaction.trx_id).Nodup)
    (hr : rows_per_bank ≤ available.length / num_banks) (hij : i ≠ j) :
    List.Disjoint
      ((bank_slice available num_banks rows_per_bank i).map Transaction.trx_id)
      ((bank_slice available num_banks rows_per_bank j).map Transaction.trx_id) := by
  unfold bank_slice
  rcases Nat.lt_or_ge i j with hlt | hge
  · apply disjoint_map_take_drop _ _ hnd
    have h1 : (i + 1) * (available.length / num_banks) ≤
        j * (available.length / num_banks) :=
      Nat.mul_le_mul_right _ hlt
    have h2 : (i + 1) * (available.length / num_banks) =
        i * (available.length / num_banks) + available.length / num_banks := by ring
    omega
  · have hlt : j < i := lt_of_le_of_ne hge (Ne.symm hij)
    apply List.Disjoint.symm
    apply disjoint_map_take_drop _ _ hnd
    have h1 : (j + 1) * (available.length / num_banks) ≤
        i * (available.length / num_banks) :=
      Nat.mul_le_mul_right _ hlt
    have h2 : (j + 1) * (available.length / num_banks) =
        j * (available.length / num_banks) + available.length / num_banks := by ring
    omega

theorem C3_amended_witness :
    (2 ≤ 4 / 2 ∧ (0 : ℕ) ≠ 1) ∧
    List.Disjoint
      ((bank_slice [⟨"TRX00000001", 10, TxType.CREDIT, ⟨2024, 1, 1⟩⟩,
          ⟨"TRX00000002", 10, TxType.CREDIT, ⟨2024, 1, 1⟩⟩,
          ⟨"TRX00000003", 10, TxType.CREDIT, ⟨2024, 1, 1⟩⟩,
          ⟨"TRX00000004", 10, TxType.CREDIT, ⟨2024, 1, 1⟩⟩] 2 2 0).map Transaction.trx_id)
      ((bank_slice [⟨"TRX00000001", 10, TxType.CREDIT, ⟨2024, 1, 1⟩⟩,
          ⟨"TRX00000002", 10, TxType.CREDIT, ⟨2024, 1, 1⟩⟩,
          ⟨"TRX00000003", 10, TxType.CREDIT, ⟨2024, 1, 1⟩⟩,
          ⟨"TRX00000004", 10, TxType.CREDIT, ⟨2024, 1, 1⟩⟩] 2 2 1).map Transaction.trx_id) :=
  ⟨⟨by norm_num, by norm_num⟩,
    C3_partition_disjoint_amended _ 2 2 0 1 (by decide) (by decide) (by decide)⟩

/-- C5: for every source, the number of appended unmatched records is
`⌊rows_per_source * 0.05⌋` (equivalently `rows_per_source / 20`), and no
unmatched record's `ref_id` (which starts with `'B'`) can equal any
generated authoritative transaction id (which starts with `'T'`). -/
theorem C5_unmatched_count_and_no_collision (bank_name : String) (rows_per_bank : ℕ)
    (udraw : ℕ → ℚ × PyDate) (count : ℕ) (d : ℕ → TxDraw) :
    (unmatched_rows bank_name rows_per_bank udraw).length = num_unmatched rows_per_bank ∧
    num_unmatched rows_per_bank = rows_per_bank / 20 ∧
    ∀ r ∈ unmatched_rows bank_name rows_per_bank udraw,
      ∀ t ∈ create_postgres_transactions count d, r.trx_ref_id ≠ t.trx_id := by
  refine ⟨unmatched_rows_length _ _ _, num_unmatched_eq _, ?_⟩
  intro r hr t ht heq
  have hr' : ∃ a, a < num_unmatched rows_per_bank ∧
      (⟨fake_trx_id bank_name a, format2 (generate_random_amount (udraw a).1),
        dateStr (udraw a).2⟩ : CsvRow) = r := by
    simpa [unmatched_rows] using hr
  have ht' : ∃ k, k < count ∧
      (⟨generate_transaction_id (k + 1), generate_random_amount ((d (k + 1)).amountDraw),
        (d (k + 1)).typeDraw, (d (k + 1)).timeDraw⟩ : Transaction) = t := by
    simpa [create_postgres_transactions] using ht
  obtain ⟨i, hi, hri⟩ := hr'
  obtain ⟨k, hk, htk⟩ := ht'
  subst hri
  subst htk
  have heq2 : fake_trx_id bank_name i = generate_transaction_id (k + 1) := heq
  have hB := fake_trx_id_headChar bank_name i
  rw [heq2] at hB
  have hT := generate_transaction_id_headChar (k + 1)
  rw [hB] at hT
  exact absurd (Option.some_inj.mp hT) (by decide)

theorem C5_witness :
    (unmatched_rows "bank_bca" 100 (fun _ => (10, ⟨2024, 1, 1⟩))).length = 5 := by
  have h := C5_unmatched_count_and_no_collision "bank_bca" 100 (fun _ => (10, ⟨2024, 1, 1⟩))
    3 (fun _ => ⟨10, TxType.CREDIT, ⟨2024, 1, 1⟩⟩)
  rw [h.1, h.2.1]

/-- C6 counterexample: for the source `"bank_bca"`, the first synthetic
unmatched record's `ref_id` is `"BANK_BANK_BCA_000000"` — the literal
prefix `"BANK_"` followed by the upper-cased source name — whereas the
claimed pattern `{SOURCE}_{seq:06d}` (source name upper-cased, an
underscore, 6-digit sequence) would give `"BANK_BCA_000000"`. -/
theorem C6_counterexample :
    ((unmatched_rows "bank_bca" 100 (fun _ => (10, ⟨2024, 1, 1⟩))).map
        CsvRow.trx_ref_id).head? = some "BANK_BANK_BCA_000000" ∧
    "bank_bca".toUpper ++ "_" ++ zeroPad 6 (natStr 0) = "BANK_BCA_000000" ∧
    ("BANK_BANK_BCA_000000" : String) ≠ "BANK_BCA_000000" := by
  refine ⟨?_, ?_, by decide⟩
  · have h5 : num_unmatched 100 = 5 := num_unmatched_100
    simp only [unmatched_rows, h5]
    show some (fake_trx_id "bank_bca" 0) = _
    simp only [fake_trx_id, toUpper_bank_bca]
    decide
  · rw [toUpper_bank_bca]
    decide

/-- C6 (amended): every synthetic unmatched record's `ref_id` follows
the pattern `BANK_{SOURCE}_{seq:06d}`: the literal prefix `"BANK_"`,
then the source name upper-cased, an underscore, and the zero-padded
6-digit sequence number (exactly 6 digit characters for sequence
numbers below `10^6`). -/
theorem C6_unmatched_refid_amended (bank_name : String) (rows : ℕ)
    (udraw : ℕ → ℚ × PyDate) (i : ℕ)
    (hi : i < (unmatched_rows bank_name rows udraw).length) (h6 : i < 10 ^ 6) :
    ((unmatched_rows bank_name rows udraw).get ⟨i, hi⟩).trx_ref_id =
      "BANK_" ++ bank_name.toUpper ++ "_" ++ zeroPad 6 (natStr i) ∧
    (zeroPad 6 (natStr i)).data.length = 6 ∧
    ∀ c ∈ (zeroPad 6 (natStr i)).data, c.isDigit = true := by
  refine ⟨?_, ?_, zeroPad_all_digits 6 _ (natStr_all_digits i)⟩
  · have hlen : (unmatched_rows bank_name rows udraw).length = num_unmatched rows :=
      unmatched_rows_length _ _ _
    simp only [unmatched_rows, List.get_eq_getElem, List.getElem_map, List.getElem_range]
    rfl
  · exact zeroPad_length_of_le (natStr_length_le (by norm_num) h6)

theorem C6_amended_witness :
    (0 : ℕ) < 10 ^ 6 ∧ (zeroPad 6 (natStr 0)).data.length = 6 := by
  refine ⟨by norm_num, ?_⟩
  have hlen : 0 < (unmatched_rows "bank_bca" 100 (fun _ => (10, ⟨2024, 1, 1⟩))).length := by
    rw [unmatched_rows_length, num_unmatched_100]
    norm_num
  exact (C6_unmatched_refid_amended "bank_bca" 100 (fun _ => (10, ⟨2024, 1, 1⟩)) 0 hlen
    (by norm_num)).2.1

/-- C7: for every positive count (with draws in the documented uniform
range), generation produces exactly `count` transactions; the `k`-th id
is `"TRX"` followed by the zero-padded 8-digit rendering of the sequence
number `k + 1` (so sequence numbers increase strictly from 1); ids are
unique within the run; and every amount lies in `[10, 10000]` and is an
exact two-decimal value. -/
theorem C7_generation (count : ℕ) (d : ℕ → TxDraw) (hpos : 0 < count)
    (hd : ∀ j, 10 ≤ (d j).amountDraw ∧ (d j).amountDraw ≤ 10000) :
    (create_postgres_transactions count d).length = count ∧
    (∀ k (hk : k < (create_postgres_transactions count d).length),
        ((create_postgres_transactions count d).get ⟨k, hk⟩).trx_id =
          "TRX" ++ zeroPad 8 (natStr (k + 1))) ∧
    (∀ k1 k2 (h1 : k1 < (create_postgres_transactions count d).length)
        (h2 : k2 < (create_postgres_transactions count d).length),
        ((create_postgres_transactions count d).get ⟨k1, h1⟩).trx_id =
          ((create_postgres_transactions count d).get ⟨k2, h2⟩).trx_id → k1 = k2) ∧
    ∀ t ∈ create_postgres_transactions count d,
      10 ≤ t.amount ∧ t.amount ≤ 10000 ∧ isCents t.amount := by
  have hget : ∀ k (hk : k < (create_postgres_transactions count d).length),
      ((create_postgres_transactions count d).get ⟨k, hk⟩).trx_id =
        generate_transaction_id (k + 1) := by
    intro k hk
    simp [create_postgres_transactions, List.get_eq_getElem, List.getElem_map,
      List.getElem_range]
  refine ⟨by simp [create_postgres_transactions], ?_, ?_, ?_⟩
  · intro k hk
    rw [hget k hk]
    rfl
  · intro k1 k2 h1 h2 heq
    rw [hget k1 h1, hget k2 h2] at heq
    have := generate_transaction_id_inj heq
    omega
  · intro t ht
    have ht' : ∃ k, k < count ∧
        (⟨generate_transaction_id (k + 1), generate_random_amount ((d (k + 1)).amountDraw),
          (d (k + 1)).typeDraw, (d (k + 1)).timeDraw⟩ : Transaction) = t := by
      simpa [create_postgres_transactions] using ht
    obtain ⟨k, hk, htk⟩ := ht'
    subst htk
    exact generate_random_amount_range (hd (k + 1)).1 (hd (k + 1)).2

theorem C7_witness :
    0 < 2 ∧
    (create_postgres_transactions 2 (fun _ => ⟨10, TxType.CREDIT, ⟨2024, 1, 1⟩⟩)).length = 2 := by
  refine ⟨by norm_num, ?_⟩
  exact (C7_generation 2 (fun _ => ⟨10, TxType.CREDIT, ⟨2024, 1, 1⟩⟩) (by norm_num)
    (fun j => ⟨by norm_num, by norm_num⟩)).1

/-- C8: for every AMOUNT_DISCREPANCY row, the written amount field is the
offset amount with the sign convention applied and then 2-decimal
formatting (offset drawn from `[-100, 100]`); it parses back to the
signed rounded value, whose unsigned magnitude differs from the
authoritative amount by at most 100; and the date field is the valid
transaction date. -/
theorem C8_amount_discrepancy (t : Transaction) (u error_rate offset : ℚ)
    (hdef : u < error_rate) (hc : isCents t.amount)
    (ho1 : -100 ≤ offset) (ho2 : offset ≤ 100) :
    (emit_row t u error_rate ErrorType.amount_discrepancy offset).amount =
        format2 (bank_signed t.tx_type (t.amount + offset)) ∧
    parseDecimal (emit_row t u error_rate ErrorType.amount_discrepancy offset).amount =
        some (bank_signed t.tx_type ((rnd (100 * (t.amount + offset)) : ℚ) / 100)) ∧
    |((rnd (100 * (t.amount + offset)) : ℚ) / 100) - t.amount| ≤ 100 ∧
    (emit_row t u error_rate ErrorType.amount_discrepancy offset).date = dateStr t.tx_time := by
  obtain ⟨n, hn⟩ := hc
  simp only [emit_row, if_pos hdef]
  refine ⟨trivial, ?_, ?_, trivial⟩
  · cases hty : t.tx_type
    · simp only [bank_signed]
      rw [parseDecimal_format2]
      congr 1
      have h1 : (100 : ℚ) * (-(t.amount + offset)) = -(100 * (t.amount + offset)) := by ring
      rw [h1, rnd_neg]
      push_cast
      ring
    · simp only [bank_signed]
      rw [parseDecimal_format2]
  · have hup : 100 * (t.amount + offset) ≤ ((n + 10000 : ℤ) : ℚ) := by
      have e : (100 : ℚ) * ((n : ℚ) / 100 + offset) = (n : ℚ) + 100 * offset := by ring
      rw [hn, e]
      push_cast
      linarith
    have hlo : ((n - 10000 : ℤ) : ℚ) ≤ 100 * (t.amount + offset) := by
      have e : (100 : ℚ) * ((n : ℚ) / 100 + offset) = (n : ℚ) + 100 * offset := by ring
      rw [hn, e]
      push_cast
      linarith
    have h1 := rnd_le_of_le_intCast hup
    have h2 := intCast_le_rnd hlo
    have h1' : (rnd (100 * (t.amount + offset)) : ℚ) ≤ (n : ℚ) + 10000 := by
      exact_mod_cast h1
    have h2' : (n : ℚ) - 10000 ≤ (rnd (100 * (t.amount + offset)) : ℚ) := by
      exact_mod_cast h2
    rw [abs_le]
    rw [hn] at h1' h2'
    rw [hn]
    constructor <;> linarith

theorem C8_witness :
    ((0 : ℚ) < 1 ∧ (-100 : ℚ) ≤ 100 ∧ (100 : ℚ) ≤ 100) ∧
    |((rnd (100 * ((100 : ℚ) + 100)) : ℚ) / 100) - 100| ≤ 100 := by
  refine ⟨⟨by norm_num, by norm_num, by norm_num⟩, ?_⟩
  exact (C8_amount_discrepancy ⟨"TRX00000001", 100, TxType.CREDIT, ⟨2024, 1, 2⟩⟩ 0 1 100
    (by norm_num) ⟨10000, by norm_num⟩ (by norm_num) (by norm_num)).2.2.1

/-- C9: if persisting the authoritative dataset fails (the database
write raises), the run reaches the `except` handler with no bank file
written and exits with code 1 (non-zero); on success the run exits 0 and
writes one file per bank. -/
theorem C9_persist_failure_aborts (msg : String)
    (shuffle : List Transaction → List Transaction) (error_rate : ℚ)
    (rdraw : ℕ → ℕ → ℚ × ErrorType × ℚ) (udraw : ℕ → ℕ → ℚ × PyDate) :
    (main_run (Except.error msg) shuffle error_rate rdraw udraw).files = [] ∧
    (main_run (Except.error msg) shuffle error_rate rdraw udraw).exit_code = 1 ∧
    (main_run (Except.error msg) shuffle error_rate rdraw udraw).exit_code ≠ 0 ∧
    ∀ txs, (main_run (Except.ok txs) shuffle error_rate rdraw udraw).exit_code = 0 ∧
      (main_run (Except.ok txs) shuffle error_rate rdraw udraw).files.length =
        BANKS.length := by
  refine ⟨rfl, rfl, ?_, ?_⟩
  · rw [show (main_run (Except.error msg) shuffle error_rate rdraw udraw).exit_code = 1
      from rfl]
    norm_num
  · intro txs
    refine ⟨rfl, ?_⟩
    simp [main_run, create_bank_csv_files]

end ReconMock
